import Mathlib

/-!
Verification of the symbolic-to-numeric pipeline of the `gluex-amplitude`
repository (`docs/widget.ipynb`).

The notebook builds, with SymPy, the two-pseudoscalar intensity expression

  I = 2 κ Σ_k [ (1−P)|Σ_{l,m} A⁻_{m,k} Re Z_l^m|² + (1−P)|Σ_{l,m} A⁺_{m,k} Im Z_l^m|²
              + (1+P)|Σ_{l,m} A⁺_{m,k} Re Z_l^m|² + (1+P)|Σ_{l,m} A⁻_{m,k} Im Z_l^m|² ]

with `Z_l^m(θ,φ,Φ) = Y_l^m(θ,φ)·exp(−iΦ)` an unevaluated (lazy) node that is
expanded by `doit()`, `PoolSum` nodes for the nested sums, and then
substitutes parameters (`xreplace`), lambdifies the expanded tree to a
numeric function and drives slider widgets.

This file gives a deep embedding of the SymPy expression trees the notebook
manipulates (`Expr`), of the notebook's `doit` expansion, `xreplace`
substitution, free-symbol extraction and argument-list construction, the
slider construction of the widget, and an evaluation semantics `eval` into ℂ
in which the spherical harmonic `Ynm` is an uninterpreted function supplied
by the environment.  Machine floats are modelled by exact complex arithmetic.
-/

namespace GluexAmp

/-- The scalar SymPy symbols declared by the notebook
(`k, l, m = sp.symbols("k l m")`, `phi, theta, Phi = sp.symbols(..., real=True)`,
`kappa = sp.Symbol("kappa")`, `Py = sp.Symbol("P_gamma")`). -/
inductive Sym where
  | k | l | m | theta | phi | Phi | Pgamma | kappa
deriving DecidableEq, Repr

/-- Marker for `sp.re` versus `sp.im` wrappers used in the four intensity terms. -/
inductive Part where
  | re | im
deriving DecidableEq, Repr

/-- Deep embedding of the SymPy expression trees occurring in the notebook.
`indexed pos i j` is `[l]^{(+)}[i, j]` (`pos = true`) or `[l]^{(-)}[i, j]`
built from the two `IndexedBase`s; `ynm` is the standard spherical harmonic
`Ynm`; `znm` is the notebook's unevaluated `Znm` node; `poolSum body i r` is
`PoolSum(body, (i, r))` (the notebook's two-index pool sums are represented
as two nested single-index pool sums, which expand to the same terms). -/
inductive Expr where
  | const (q : ℚ)
  | pi
  | I
  | sym (s : Sym)
  | indexed (pos : Bool) (i j : Expr)
  | add (a b : Expr)
  | mul (a b : Expr)
  | pow (a : Expr) (n : ℕ)
  | abs (a : Expr)
  | re (a : Expr)
  | im (a : Expr)
  | exp (a : Expr)
  | ynm (n mm th ph : Expr)
  | znm (n mm th ph Ph : Expr)
  | poolSum (body : Expr) (i : Sym) (r : List ℚ)
deriving DecidableEq, Repr

/-- `Part` as an `Expr` wrapper. -/
def Part.wrap : Part → Expr → Expr
  | .re, e => .re e
  | .im, e => .im e

/-- The rational value of a literal `Expr.const` node, if the node is one. -/
def constQ : Expr → Option ℚ
  | .const q => some q
  | _ => none

/-- SymPy's `Add(*terms)` over a list of terms (an empty sum is `0`,
a one-element sum is the term itself). -/
def sumExpr : List Expr → Expr
  | [] => .const 0
  | [x] => x
  | x :: y :: ys => .add x (sumExpr (y :: ys))

/-- Substitution of a concrete rational value for an index symbol, as
performed by `PoolSum.doit` for each point of the summation range. -/
def substConst (i : Sym) (q : ℚ) : Expr → Expr
  | .const c => .const c
  | .pi => .pi
  | .I => .I
  | .sym s => if s = i then .const q else .sym s
  | .indexed p a b => .indexed p (substConst i q a) (substConst i q b)
  | .add a b => .add (substConst i q a) (substConst i q b)
  | .mul a b => .mul (substConst i q a) (substConst i q b)
  | .pow a n => .pow (substConst i q a) n
  | .abs a => .abs (substConst i q a)
  | .re a => .re (substConst i q a)
  | .im a => .im (substConst i q a)
  | .exp a => .exp (substConst i q a)
  | .ynm n mm th ph =>
      .ynm (substConst i q n) (substConst i q mm) (substConst i q th) (substConst i q ph)
  | .znm n mm th ph Ph =>
      .znm (substConst i q n) (substConst i q mm) (substConst i q th) (substConst i q ph)
        (substConst i q Ph)
  | .poolSum b j r => .poolSum (substConst i q b) j r

/-- The notebook's `doit()` expansion: every `PoolSum` is unfolded into the
sum of its instantiated bodies and every `Znm(l, m, θ, φ, Φ)` node is
replaced by `Ynm(l, m, θ, φ) * exp(-I*Φ)` (the `Znm.evaluate` rule). -/
def doit : Expr → Expr
  | .const q => .const q
  | .pi => .pi
  | .I => .I
  | .sym s => .sym s
  | .indexed p a b => .indexed p (doit a) (doit b)
  | .add a b => .add (doit a) (doit b)
  | .mul a b => .mul (doit a) (doit b)
  | .pow a n => .pow (doit a) n
  | .abs a => .abs (doit a)
  | .re a => .re (doit a)
  | .im a => .im (doit a)
  | .exp a => .exp (doit a)
  | .ynm n mm th ph => .ynm (doit n) (doit mm) (doit th) (doit ph)
  | .znm n mm th ph Ph =>
      .mul (.ynm (doit n) (doit mm) (doit th) (doit ph))
        (.exp (.mul (.mul (.const (-1)) .I) (doit Ph)))
  | .poolSum body i r => sumExpr (r.map fun q => substConst i q (doit body))

/-- An expression is fully expanded when it contains no unevaluated
`PoolSum` or `Znm` node (this is what `doit` produces). -/
def expanded : Expr → Bool
  | .const _ => true
  | .pi => true
  | .I => true
  | .sym _ => true
  | .indexed _ a b => expanded a && expanded b
  | .add a b => expanded a && expanded b
  | .mul a b => expanded a && expanded b
  | .pow a _ => expanded a
  | .abs a => expanded a
  | .re a => expanded a
  | .im a => expanded a
  | .exp a => expanded a
  | .ynm n mm th ph => expanded n && expanded mm && expanded th && expanded ph
  | .znm _ _ _ _ _ => false
  | .poolSum _ _ _ => false

/-- All indexed-coefficient nodes of the expression carry literal
(numeric) indices, as they do after `doit` has instantiated the pool sums. -/
def goodIndexed : Expr → Bool
  | .const _ => true
  | .pi => true
  | .I => true
  | .sym _ => true
  | .indexed _ a b => (constQ a).isSome && (constQ b).isSome
  | .add a b => goodIndexed a && goodIndexed b
  | .mul a b => goodIndexed a && goodIndexed b
  | .pow a _ => goodIndexed a
  | .abs a => goodIndexed a
  | .re a => goodIndexed a
  | .im a => goodIndexed a
  | .exp a => goodIndexed a
  | .ynm n mm th ph => goodIndexed n && goodIndexed mm && goodIndexed th && goodIndexed ph
  | .znm n mm th ph Ph =>
      goodIndexed n && goodIndexed mm && goodIndexed th && goodIndexed ph && goodIndexed Ph
  | .poolSum b _ _ => goodIndexed b

/-- `1` when `pow base n` with these components is a squared magnitude
`Abs(...)**2`, else `0`. -/
def absSqFlag : Expr → ℕ → ℕ
  | .abs _, 2 => 1
  | _, _ => 0

/-- Number of squared-magnitude (`Abs(...)**2`) subterms of the expression. -/
def countAbsSq : Expr → ℕ
  | .pow a n => countAbsSq a + absSqFlag a n
  | .const _ => 0
  | .pi => 0
  | .I => 0
  | .sym _ => 0
  | .indexed _ a b => countAbsSq a + countAbsSq b
  | .add a b => countAbsSq a + countAbsSq b
  | .mul a b => countAbsSq a + countAbsSq b
  | .abs a => countAbsSq a
  | .re a => countAbsSq a
  | .im a => countAbsSq a
  | .exp a => countAbsSq a
  | .ynm n mm th ph => countAbsSq n + countAbsSq mm + countAbsSq th + countAbsSq ph
  | .znm n mm th ph Ph =>
      countAbsSq n + countAbsSq mm + countAbsSq th + countAbsSq ph + countAbsSq Ph
  | .poolSum b _ _ => countAbsSq b

/-- The degree (first) arguments of all spherical-harmonic nodes of the
expression, in tree order. -/
def ynmDegrees : Expr → List Expr
  | .const _ => []
  | .pi => []
  | .I => []
  | .sym _ => []
  | .indexed _ a b => ynmDegrees a ++ ynmDegrees b
  | .add a b => ynmDegrees a ++ ynmDegrees b
  | .mul a b => ynmDegrees a ++ ynmDegrees b
  | .pow a _ => ynmDegrees a
  | .abs a => ynmDegrees a
  | .re a => ynmDegrees a
  | .im a => ynmDegrees a
  | .exp a => ynmDegrees a
  | .ynm n mm th ph => n :: (ynmDegrees n ++ ynmDegrees mm ++ ynmDegrees th ++ ynmDegrees ph)
  | .znm n mm th ph Ph =>
      n :: (ynmDegrees n ++ ynmDegrees mm ++ ynmDegrees th ++ ynmDegrees ph ++ ynmDegrees Ph)
  | .poolSum b _ _ => ynmDegrees b

/-- A free symbol of an expression, as SymPy's `free_symbols` reports them
after `doit`: either one of the scalar `Symbol`s or an `Indexed` coefficient
with concrete indices. -/
inductive Atom where
  | sym (s : Sym)
  | ind (pos : Bool) (i j : ℚ)
deriving DecidableEq, Repr

/-- `str()` of an integer as SymPy prints it inside an `Indexed`. -/
def ratStr (q : ℚ) : String :=
  if q < 0 then "-" ++ Nat.repr q.num.natAbs else Nat.repr q.num.natAbs

/-- The `str()` of each symbol, as used for the `sorted(..., key=str)` call
and the slider keys in the notebook (`"[l]^{(+)}[-2, 0]"` etc.). -/
def Atom.name : Atom → String
  | .sym .k => "k"
  | .sym .l => "l"
  | .sym .m => "m"
  | .sym .theta => "theta"
  | .sym .phi => "phi"
  | .sym .Phi => "Phi"
  | .sym .Pgamma => "P_gamma"
  | .sym .kappa => "kappa"
  | .ind pos i j =>
      "[l]^\x7b(" ++ (if pos then "+" else "-") ++ ")\x7d[" ++ ratStr i ++ ", " ++ ratStr j ++ "]"

/-- The free symbols of an expression, in tree order, possibly with
duplicates.  An `Indexed` node with concrete indices is itself a free
symbol; the bound index of a `PoolSum` is not free in it. -/
def freeAtoms : Expr → List Atom
  | .const _ => []
  | .pi => []
  | .I => []
  | .sym s => [.sym s]
  | .indexed p a b =>
      match constQ a, constQ b with
      | some qa, some qb => [.ind p qa qb]
      | _, _ => freeAtoms a ++ freeAtoms b
  | .add a b => freeAtoms a ++ freeAtoms b
  | .mul a b => freeAtoms a ++ freeAtoms b
  | .pow a _ => freeAtoms a
  | .abs a => freeAtoms a
  | .re a => freeAtoms a
  | .im a => freeAtoms a
  | .exp a => freeAtoms a
  | .ynm n mm th ph => freeAtoms n ++ freeAtoms mm ++ freeAtoms th ++ freeAtoms ph
  | .znm n mm th ph Ph =>
      freeAtoms n ++ freeAtoms mm ++ freeAtoms th ++ freeAtoms ph ++ freeAtoms Ph
  | .poolSum b i _ => (freeAtoms b).filter (· ≠ .sym i)

/-- Lexicographic (code-point) order on character lists: the order Python's
`sorted(..., key=str)` compares strings with. -/
def charListLt : List Char → List Char → Bool
  | [], [] => false
  | [], _ :: _ => true
  | _ :: _, [] => false
  | c :: cs, d :: ds =>
      if c.toNat < d.toNat then true
      else if d.toNat < c.toNat then false
      else charListLt cs ds

/-- Strict name order on atoms. -/
def nameLt (a b : Atom) : Bool := charListLt a.name.toList b.name.toList

/-- Insert an atom into a name-sorted list of atoms. -/
def insertAtom (a : Atom) : List Atom → List Atom
  | [] => [a]
  | x :: xs => if nameLt x a then x :: insertAtom a xs else a :: x :: xs

/-- Sort a list of atoms by name, ascending — the order produced by
`sorted(free_symbols, key=str)`. -/
def sortAtoms : List Atom → List Atom
  | [] => []
  | x :: xs => insertAtom x (sortAtoms xs)

/-- The deduplicated, name-sorted free-symbol list of an expression
(SymPy's `sorted(expr.free_symbols, key=str)`). -/
def sortedFreeSymbols (e : Expr) : List Atom :=
  sortAtoms (freeAtoms e).dedup

/-- Whether an atom is an `Indexed` coefficient (`isinstance(s, sp.Indexed)`). -/
def Atom.isIndexed : Atom → Bool
  | .ind _ _ _ => true
  | .sym _ => false

/-! ## The notebook's formula assembler -/

/-- `znm = Znm(l, m, theta, phi, Phi)` from the notebook. -/
def znm : Expr := .znm (.sym .l) (.sym .m) (.sym .theta) (.sym .phi) (.sym .Phi)

/-- One inner pool sum `PoolSum([l]^{(±)}[m, k] * re/im(znm), (l, l_range), (m, m_range))`. -/
def ampSum (pos : Bool) (p : Part) (lr mr : List ℚ) : Expr :=
  .poolSum (.poolSum (.mul (.indexed pos (.sym .m) (.sym .k)) (p.wrap znm)) .m mr) .l lr

/-- The SymPy tree of `1 - P_gamma` (an `Add` of `1` and `Mul(-1, P_gamma)`). -/
def oneMinusP : Expr := .add (.const 1) (.mul (.const (-1)) (.sym .Pgamma))

/-- The SymPy tree of `1 + P_gamma`. -/
def onePlusP : Expr := .add (.const 1) (.sym .Pgamma)

/-- The summand of the outer pool sum over `k`: the four weighted
squared magnitudes of the intensity formula. -/
def intensityBody (lr mr : List ℚ) : Expr :=
  .add (.add (.add
    (.mul oneMinusP (.pow (.abs (ampSum false .re lr mr)) 2))
    (.mul oneMinusP (.pow (.abs (ampSum true .im lr mr)) 2)))
    (.mul onePlusP (.pow (.abs (ampSum true .re lr mr)) 2)))
    (.mul onePlusP (.pow (.abs (ampSum false .im lr mr)) 2))

/-- The notebook's `intensity_expr`, parameterized by the summation ranges:
`2 * kappa * PoolSum(..., (k, k_values))`. -/
def intensityExpr (lr mr kv : List ℚ) : Expr :=
  .mul (.const 2) (.mul (.sym .kappa) (.poolSum (intensityBody lr mr) .k kv))

/-- `create_range(min_, max_)`: the tuple of rationals `min_ .. max_`. -/
def createRange (a b : ℤ) : List ℚ :=
  (List.range (b + 1 - a).toNat).map fun i => ((a + i : ℤ) : ℚ)

/-- `max_l = 2`. -/
def maxL : ℚ := 2

/-- `k_values = [0]`. -/
def kValues : List ℚ := [0]

/-- `l_range = [max_l]` (the commented-out alternative was `create_range(0, max_l)`). -/
def lRange : List ℚ := [maxL]

/-- `m_range = create_range(-max_l, max_l)`. -/
def mRange : List ℚ := createRange (-2) 2

/-- The concrete `intensity_expr` built by the notebook. -/
def intensityNotebook : Expr := intensityExpr lRange mRange kValues

/-- `xreplace({kappa: sp.pi})`: the substitution applied before lambdification. -/
def substKappa : Expr → Expr
  | .const q => .const q
  | .pi => .pi
  | .I => .I
  | .sym s => if s = .kappa then .pi else .sym s
  | .indexed p a b => .indexed p (substKappa a) (substKappa b)
  | .add a b => .add (substKappa a) (substKappa b)
  | .mul a b => .mul (substKappa a) (substKappa b)
  | .pow a n => .pow (substKappa a) n
  | .abs a => .abs (substKappa a)
  | .re a => .re (substKappa a)
  | .im a => .im (substKappa a)
  | .exp a => .exp (substKappa a)
  | .ynm n mm th ph => .ynm (substKappa n) (substKappa mm) (substKappa th) (substKappa ph)
  | .znm n mm th ph Ph =>
      .znm (substKappa n) (substKappa mm) (substKappa th) (substKappa ph) (substKappa Ph)
  | .poolSum b i r => .poolSum (substKappa b) i r

/-- `plotted_expr = intensity_expr.doit().xreplace({kappa: sp.pi})`
(the subsequent `expand(func=True)` only rewrites the abstract harmonic
into its closed trigonometric form and is the identity in this embedding,
where `Ynm` is kept uninterpreted). -/
def plottedExpr : Expr := substKappa (doit intensityNotebook)

/-- `free_symbols = sorted(intensity_expr.doit().free_symbols, key=str)`. -/
def freeSymbolsNb : List Atom := sortedFreeSymbols (doit intensityNotebook)

/-- `amp_symbols = [s for s in free_symbols if isinstance(s, sp.Indexed)]`. -/
def ampSymbolsNb : List Atom := freeSymbolsNb.filter (·.isIndexed)

/-- `arguments = (theta, phi, Phi, Py, *amp_symbols)`: the positional
argument list handed to `sp.lambdify`. -/
def argumentsNb : List Atom :=
  [.sym .theta, .sym .phi, .sym .Phi, .sym .Pgamma] ++ ampSymbolsNb

/-! ## Evaluation semantics -/

/-- An evaluation environment: values for the scalar symbols, values for the
two indexed-coefficient families (`amps true` is `[l]^{(+)}`, `amps false`
is `[l]^{(-)}`), and an interpretation `sph` of the spherical harmonic
`Ynm(n, m, θ, φ)`, kept uninterpreted so that every theorem below holds for
the actual special function in particular. -/
structure Env where
  vars : Sym → ℂ
  amps : Bool → ℚ → ℚ → ℂ
  sph : ℂ → ℂ → ℂ → ℂ → ℂ

/-- Evaluation of an expression tree to a complex number.  `Abs` is the
complex modulus, `re`/`im` the real and imaginary parts (coerced back to ℂ,
as SymPy keeps them as real-valued expressions), and a `PoolSum` evaluates
to the sum of its body over the range, with the index symbol bound.  An
`indexed` node with non-literal indices (which never survives `doit`)
evaluates to the junk value `0`. -/
noncomputable def eval : Env → Expr → ℂ
  | _, .const q => (q : ℂ)
  | _, .pi => ((Real.pi : ℝ) : ℂ)
  | _, .I => Complex.I
  | env, .sym s => env.vars s
  | env, .indexed p a b =>
      match constQ a, constQ b with
      | some qa, some qb => env.amps p qa qb
      | _, _ => 0
  | env, .add a b => eval env a + eval env b
  | env, .mul a b => eval env a * eval env b
  | env, .pow a n => eval env a ^ n
  | env, .abs a => ((Complex.abs (eval env a) : ℝ) : ℂ)
  | env, .re a => (((eval env a).re : ℝ) : ℂ)
  | env, .im a => (((eval env a).im : ℝ) : ℂ)
  | env, .exp a => Complex.exp (eval env a)
  | env, .ynm n mm th ph => env.sph (eval env n) (eval env mm) (eval env th) (eval env ph)
  | env, .znm n mm th ph Ph =>
      env.sph (eval env n) (eval env mm) (eval env th) (eval env ph)
        * Complex.exp (((-1 : ℚ) : ℂ) * Complex.I * eval env Ph)
  | env, .poolSum body i r =>
      (r.map fun q => eval { env with vars := Function.update env.vars i (q : ℂ) } body).sum

/-- The semantic counterpart of `Part`. -/
def Part.sem : Part → ℂ → ℝ
  | .re => Complex.re
  | .im => Complex.im

/-- The value of the expanded `Z_l^m` at concrete indices:
`Ynm(l, m, θ, φ) * exp(-I*Φ)`. -/
noncomputable def zVal (env : Env) (lq mq : ℚ) : ℂ :=
  env.sph (lq : ℂ) (mq : ℂ) (env.vars .theta) (env.vars .phi)
    * Complex.exp (((-1 : ℚ) : ℂ) * Complex.I * env.vars .Phi)

/-- The value of one inner partial-wave sum
`Σ_{l∈lr} Σ_{m∈mr} A^{(±)}_{m,k} · (re/im)(Z_l^m)` at flip index `kq`. -/
noncomputable def waveSum (env : Env) (pos : Bool) (p : Part) (lr mr : List ℚ) (kq : ℚ) : ℂ :=
  (lr.map fun lq =>
    (mr.map fun mq => env.amps pos mq kq * ((p.sem (zVal env lq mq) : ℝ) : ℂ)).sum).sum

/-- The value of the four weighted squared magnitudes at flip index `kq`. -/
noncomputable def bodyVal (env : Env) (lr mr : List ℚ) (kq : ℚ) : ℂ :=
  (((1 : ℚ) : ℂ) + ((-1 : ℚ) : ℂ) * env.vars .Pgamma)
      * ((Complex.abs (waveSum env false .re lr mr kq) : ℝ) : ℂ) ^ 2
    + (((1 : ℚ) : ℂ) + ((-1 : ℚ) : ℂ) * env.vars .Pgamma)
      * ((Complex.abs (waveSum env true .im lr mr kq) : ℝ) : ℂ) ^ 2
    + (((1 : ℚ) : ℂ) + env.vars .Pgamma)
      * ((Complex.abs (waveSum env true .re lr mr kq) : ℝ) : ℂ) ^ 2
    + (((1 : ℚ) : ℂ) + env.vars .Pgamma)
      * ((Complex.abs (waveSum env false .im lr mr kq) : ℝ) : ℂ) ^ 2

/-- The closed-form value of the fully expanded intensity expression. -/
noncomputable def intensityVal (env : Env) (lr mr kv : List ℚ) : ℂ :=
  ((2 : ℚ) : ℂ) * (env.vars .kappa * (kv.map (bodyVal env lr mr)).sum)

/-- The real-valued intensity at polarization `p` and phase-space factor
`kr` (the number the complex value coerces from). -/
noncomputable def bodyValR (env : Env) (p : ℝ) (lr mr : List ℚ) (kq : ℚ) : ℝ :=
  (1 - p) * Complex.abs (waveSum env false .re lr mr kq) ^ 2
    + (1 - p) * Complex.abs (waveSum env true .im lr mr kq) ^ 2
    + (1 + p) * Complex.abs (waveSum env true .re lr mr kq) ^ 2
    + (1 + p) * Complex.abs (waveSum env false .im lr mr kq) ^ 2

/-- The environment with the `+`/`-` coefficient families interchanged. -/
def swapEnv (env : Env) : Env :=
  { env with amps := fun pos => env.amps (!pos) }

/-! ## Parameter binder and numeric compiler -/

/-- A concrete-number assignment for every free symbol, given as
replacement expressions (in the notebook: `parameter_defaults`). -/
def substNum (ν : Atom → Expr) : Expr → Expr
  | .const q => .const q
  | .pi => .pi
  | .I => .I
  | .sym s => ν (.sym s)
  | .indexed p a b =>
      match constQ a, constQ b with
      | some qa, some qb => ν (.ind p qa qb)
      | _, _ => .indexed p (substNum ν a) (substNum ν b)
  | .add a b => .add (substNum ν a) (substNum ν b)
  | .mul a b => .mul (substNum ν a) (substNum ν b)
  | .pow a n => .pow (substNum ν a) n
  | .abs a => .abs (substNum ν a)
  | .re a => .re (substNum ν a)
  | .im a => .im (substNum ν a)
  | .exp a => .exp (substNum ν a)
  | .ynm n mm th ph => .ynm (substNum ν n) (substNum ν mm) (substNum ν th) (substNum ν ph)
  | .znm n mm th ph Ph =>
      .znm (substNum ν n) (substNum ν mm) (substNum ν th) (substNum ν ph) (substNum ν Ph)
  | .poolSum b i r => .poolSum (substNum ν b) i r

/-- The semantics of the numeric function produced by `sp.lambdify`:
a pure function of the bound symbol values. -/
noncomputable def lambdifyFun (e : Expr) : Env → ℂ := fun env => eval env e

/-- The environment that binds every symbol to the value of its
replacement expression under `env` — the "same numbers" handed to the
compiled function. -/
noncomputable def bindEnv (ν : Atom → Expr) (env : Env) : Env where
  vars := fun s => eval env (ν (.sym s))
  amps := fun p a b => eval env (ν (.ind p a b))
  sph := env.sph

/-- Error raised by the modelled Numeric Compiler. -/
inductive CompileError where
  | unboundSymbol
deriving DecidableEq, Repr

/-- Modelled from the spec: the Numeric Compiler itself is `sp.lambdify`,
third-party code that is not part of this repository; per the spec's
contract (§4.3) it checks at compile time that every free symbol of the
tree appears in the declared argument list and fails fast with an
`UnboundSymbol`-equivalent error otherwise, before any evaluation. -/
noncomputable def compileNum (e : Expr) (args : List Atom) : Except CompileError (Env → ℂ) :=
  if ((freeAtoms e).dedup).all (fun a => args.contains a) then
    .ok (lambdifyFun e)
  else
    .error .unboundSymbol

/-! ## The interactive renderer's sliders -/

/-- A slider bound value: a rational literal, `np.pi`, or `np.pi / 20`. -/
inductive SVal where
  | rat (q : ℚ)
  | pi
  | piDiv20
deriving DecidableEq, Repr

/-- The real number a slider bound denotes. -/
noncomputable def SVal.toReal : SVal → ℝ
  | .rat q => q
  | .pi => Real.pi
  | .piDiv20 => Real.pi / 20

/-- One `FloatSlider` of the widget. -/
structure Slider where
  descr : String
  min : SVal
  max : SVal
  value : SVal
  step : Option SVal
deriving DecidableEq, Repr

/-- `w.FloatSlider(description="Φ", min=0, max=np.pi, value=1, step=np.pi/20)`. -/
def sliderPhi : Slider := ⟨"Φ", .rat 0, .pi, .rat 1, some .piDiv20⟩

/-- `w.FloatSlider(description="Pγ", min=0, max=1, value=1)`. -/
def sliderPy : Slider := ⟨"Pγ", .rat 0, .rat 1, .rat 1, none⟩

/-- The magnitude slider for one amplitude coefficient:
`min=0, max=2, value=1 if "+" in s.name else 0`. -/
def magSlider (a : Atom) : Slider :=
  ⟨"magnitude", .rat 0, .rat 2, .rat (if a.name.toList.contains '+' then 1 else 0), none⟩

/-- The phase slider for one amplitude coefficient: `min=0, max=2`
(value and step left at the `FloatSlider` defaults). -/
def phaseSlider : Slider := ⟨"phase", .rat 0, .rat 2, .rat 0, none⟩

/-- The loop filter of the widget: `isinstance(s, sp.Indexed)` and
`s.name.startswith("[l]")`. -/
def isAmpSliderSymbol (a : Atom) : Bool :=
  a.isIndexed && (a.name.toList.take 3 == "[l]".toList)

/-- The ordered `sliders` dict of the notebook: the `Φ` and `Pγ` sliders
followed by one magnitude and one phase slider per amplitude coefficient,
keyed `f"{s.name}_mag"` / `f"{s.name}_phi"`. -/
def slidersNb : List (String × Slider) :=
  [("Phi_val", sliderPhi), ("Py_val", sliderPy)]
    ++ (freeSymbolsNb.filter isAmpSliderSymbol).flatMap
      (fun a => [(a.name ++ "_mag", magSlider a), (a.name ++ "_phi", phaseSlider)])

/-- The complex amplitude the `plot` callback passes to the numeric
function for one magnitude/phase slider pair:
`mag * np.exp(phase * 1j)`. -/
noncomputable def plotAmplitude (mag ph : ℝ) : ℂ :=
  (mag : ℂ) * Complex.exp ((ph : ℂ) * Complex.I)

/-- One structural well-formedness check per amplitude coefficient: exactly
one magnitude and one phase slider keyed by its name, the magnitude slider
bounded `[0, 2]` with lower bound `0`, the phase slider bounded `[0, 2]`. -/
def sliderCheck : Bool :=
  (freeSymbolsNb.filter isAmpSliderSymbol).all fun a =>
    (slidersNb.countP (fun e => e.1 == a.name ++ "_mag") == 1) &&
    (slidersNb.countP (fun e => e.1 == a.name ++ "_phi") == 1) &&
    (slidersNb.lookup (a.name ++ "_mag") == some (magSlider a)) &&
    (slidersNb.lookup (a.name ++ "_phi") == some phaseSlider)

/-- The spec's concrete scenario: `θ = π/2`, `φ = 0`, `Φ = 0`, `P = 1`,
all `A⁻ = 1`, all `A⁺ = 0` (the interpretation of the harmonic is
irrelevant to the checked property and is taken to be `0`). -/
noncomputable def scenarioEnv : Env where
  vars := fun s =>
    match s with
    | .Pgamma => 1
    | .theta => ((Real.pi / 2 : ℝ) : ℂ)
    | _ => 0
  amps := fun pos _ _ => if pos then 0 else 1
  sph := fun _ _ _ _ => 0

/-- The all-zero environment. -/
noncomputable def zeroEnv : Env :=
  ⟨fun _ => 0, fun _ _ _ => 0, fun _ _ _ _ => 0⟩

/-! ## Structural lemmas -/

lemma expanded_substConst (i : Sym) (q : ℚ) (e : Expr) :
    expanded (substConst i q e) = expanded e := by
  induction e <;> simp [substConst, expanded, *]
  case sym s => split <;> simp [expanded]

lemma expanded_sumExpr (xs : List Expr) (h : ∀ x ∈ xs, expanded x = true) :
    expanded (sumExpr xs) = true := by
  induction xs with
  | nil => simp [sumExpr, expanded]
  | cons x xs ih =>
    cases xs with
    | nil => simpa [sumExpr] using h x (by simp)
    | cons y ys =>
      simp only [sumExpr, expanded, Bool.and_eq_true]
      exact ⟨h x (by simp), ih fun z hz => h z (by simp [hz])⟩

lemma expanded_doit (e : Expr) : expanded (doit e) = true := by
  induction e <;> simp [doit, expanded, *]
  case poolSum body i r ih =>
    exact expanded_sumExpr _ fun x hx => by
      obtain ⟨q, _, rfl⟩ := List.mem_map.mp hx
      simp [expanded_substConst, ih]

lemma doit_of_expanded (e : Expr) (h : expanded e = true) : doit e = e := by
  induction e <;> simp_all [doit, expanded]

lemma absSqFlag_substConst (i : Sym) (q : ℚ) (a : Expr) (n : ℕ) :
    absSqFlag (substConst i q a) n = absSqFlag a n := by
  cases a <;>
    first
      | rfl
      | (rcases n with _ | _ | _ | n <;> rfl)
      | (simp only [substConst]; split <;> rfl)

lemma countAbsSq_substConst (i : Sym) (q : ℚ) (e : Expr) :
    countAbsSq (substConst i q e) = countAbsSq e := by
  induction e <;> simp [substConst, countAbsSq, absSqFlag_substConst, *]
  case sym s => split <;> simp [countAbsSq]

lemma countAbsSq_sumExpr (xs : List Expr) :
    countAbsSq (sumExpr xs) = (xs.map countAbsSq).sum := by
  induction xs with
  | nil => simp [sumExpr, countAbsSq]
  | cons x xs ih =>
    cases xs with
    | nil => simp [sumExpr]
    | cons y ys => simp only [sumExpr, countAbsSq, List.map_cons, List.sum_cons, ih]

lemma countAbsSq_doit_poolSum (B : Expr) (i : Sym) (r : List ℚ) :
    countAbsSq (doit (.poolSum B i r)) = r.length * countAbsSq (doit B) := by
  simp only [doit, countAbsSq_sumExpr, List.map_map]
  induction r with
  | nil => simp
  | cons q r ih =>
    simp only [List.map_cons, List.sum_cons, List.length_cons, Function.comp_apply,
      countAbsSq_substConst] at ih ⊢
    rw [ih]; ring

lemma countAbsSq_doit_ampSum (pos : Bool) (p : Part) (lr mr : List ℚ) :
    countAbsSq (doit (ampSum pos p lr mr)) = 0 := by
  have h : countAbsSq (doit (.mul (.indexed pos (.sym .m) (.sym .k)) (p.wrap znm))) = 0 := by
    cases p <;> rfl
  simp [ampSum, countAbsSq_doit_poolSum, h]

lemma doit_intensityBody (lr mr : List ℚ) :
    doit (intensityBody lr mr) =
      .add (.add (.add
        (.mul oneMinusP (.pow (.abs (doit (ampSum false .re lr mr))) 2))
        (.mul oneMinusP (.pow (.abs (doit (ampSum true .im lr mr))) 2)))
        (.mul onePlusP (.pow (.abs (doit (ampSum true .re lr mr))) 2)))
        (.mul onePlusP (.pow (.abs (doit (ampSum false .im lr mr))) 2)) := rfl

lemma doit_intensityExpr (lr mr kv : List ℚ) :
    doit (intensityExpr lr mr kv) =
      .mul (.const 2) (.mul (.sym .kappa)
        (sumExpr (kv.map fun kq => substConst .k kq (doit (intensityBody lr mr))))) := rfl

lemma countAbsSq_doit_body (lr mr : List ℚ) :
    countAbsSq (doit (intensityBody lr mr)) = 4 := by
  rw [doit_intensityBody]
  simp only [countAbsSq_doit_ampSum, countAbsSq, absSqFlag, oneMinusP, onePlusP]

lemma countAbsSq_doit_intensity (lr mr kv : List ℚ) :
    countAbsSq (doit (intensityExpr lr mr kv)) = 4 * kv.length := by
  rw [doit_intensityExpr]
  show 0 + (0 + countAbsSq
      (sumExpr (kv.map fun kq => substConst .k kq (doit (intensityBody lr mr))))) = 4 * kv.length
  rw [Nat.zero_add, Nat.zero_add, countAbsSq_sumExpr, List.map_map]
  rw [List.map_congr_left (g := fun _ => 4) fun kq _ => by
    show countAbsSq (substConst .k kq (doit (intensityBody lr mr))) = 4
    rw [countAbsSq_substConst]; exact countAbsSq_doit_body lr mr]
  induction kv with
  | nil => simp
  | cons q r ih =>
    simp only [List.map_cons, List.sum_cons, List.length_cons] at ih ⊢
    omega

/-! ## Evaluation lemmas -/

lemma eval_sumExpr (env : Env) (xs : List Expr) :
    eval env (sumExpr xs) = (xs.map (eval env)).sum := by
  induction xs with
  | nil => simp [sumExpr, eval]
  | cons x xs ih =>
    cases xs with
    | nil => simp [sumExpr]
    | cons y ys => simp only [sumExpr, eval, List.map_cons, List.sum_cons, ih]

lemma substConst_sumExpr (i : Sym) (q : ℚ) (xs : List Expr) :
    substConst i q (sumExpr xs) = sumExpr (xs.map (substConst i q)) := by
  induction xs with
  | nil => rfl
  | cons x xs ih =>
    cases xs with
    | nil => rfl
    | cons y ys => simp only [sumExpr, substConst, List.map_cons, ih]

lemma doit_ampSum (pos : Bool) (p : Part) (lr mr : List ℚ) :
    doit (ampSum pos p lr mr) =
      sumExpr (lr.map fun lq => substConst .l lq
        (sumExpr (mr.map fun mq => substConst .m mq
          (.mul (.indexed pos (.sym .m) (.sym .k))
            (p.wrap (.mul (.ynm (.sym .l) (.sym .m) (.sym .theta) (.sym .phi))
              (.exp (.mul (.mul (.const (-1)) .I) (.sym .Phi))))))))) := by
  cases p <;> rfl

lemma eval_subst_doit_ampSum (env : Env) (pos : Bool) (p : Part) (lr mr : List ℚ) (kq : ℚ) :
    eval env (substConst .k kq (doit (ampSum pos p lr mr))) = waveSum env pos p lr mr kq := by
  rw [doit_ampSum, substConst_sumExpr, eval_sumExpr, List.map_map, List.map_map]
  unfold waveSum
  refine congrArg List.sum (List.map_congr_left fun lq _ => ?_)
  show eval env (substConst .k kq (substConst .l lq
    (sumExpr (mr.map fun mq => substConst .m mq
      (.mul (.indexed pos (.sym .m) (.sym .k))
        (p.wrap (.mul (.ynm (.sym .l) (.sym .m) (.sym .theta) (.sym .phi))
          (.exp (.mul (.mul (.const (-1)) .I) (.sym .Phi)))))))))) = _
  rw [substConst_sumExpr, substConst_sumExpr, eval_sumExpr,
    List.map_map, List.map_map, List.map_map]
  refine congrArg List.sum (List.map_congr_left fun mq _ => ?_)
  cases p <;> rfl

lemma eval_subst_doit_body (env : Env) (lr mr : List ℚ) (kq : ℚ) :
    eval env (substConst .k kq (doit (intensityBody lr mr))) = bodyVal env lr mr kq := by
  rw [doit_intensityBody]
  show (((1 : ℚ) : ℂ) + ((-1 : ℚ) : ℂ) * env.vars .Pgamma)
        * ((Complex.abs (eval env (substConst .k kq (doit (ampSum false .re lr mr)))) : ℝ) : ℂ) ^ 2
      + (((1 : ℚ) : ℂ) + ((-1 : ℚ) : ℂ) * env.vars .Pgamma)
        * ((Complex.abs (eval env (substConst .k kq (doit (ampSum true .im lr mr)))) : ℝ) : ℂ) ^ 2
      + (((1 : ℚ) : ℂ) + env.vars .Pgamma)
        * ((Complex.abs (eval env (substConst .k kq (doit (ampSum true .re lr mr)))) : ℝ) : ℂ) ^ 2
      + (((1 : ℚ) : ℂ) + env.vars .Pgamma)
        * ((Complex.abs (eval env (substConst .k kq (doit (ampSum false .im lr mr)))) : ℝ) : ℂ) ^ 2
      = bodyVal env lr mr kq
  rw [eval_subst_doit_ampSum, eval_subst_doit_ampSum, eval_subst_doit_ampSum,
    eval_subst_doit_ampSum]
  rfl

lemma eval_doit_intensity (env : Env) (lr mr kv : List ℚ) :
    eval env (doit (intensityExpr lr mr kv)) = intensityVal env lr mr kv := by
  rw [doit_intensityExpr]
  show ((2 : ℚ) : ℂ) * (env.vars .kappa
      * eval env (sumExpr (kv.map fun kq => substConst .k kq (doit (intensityBody lr mr)))))
    = intensityVal env lr mr kv
  rw [eval_sumExpr, List.map_map]
  unfold intensityVal
  refine congrArg _ (congrArg _ (congrArg List.sum (List.map_congr_left fun kq _ => ?_)))
  exact eval_subst_doit_body env lr mr kq

lemma constQ_eq_some {a : Expr} {q : ℚ} : constQ a = some q ↔ a = .const q := by
  cases a <;> simp [constQ]

lemma constQ_substKappa (a : Expr) : constQ (substKappa a) = constQ a := by
  cases a <;> try rfl
  case sym s =>
    rcases eq_or_ne s Sym.kappa with rfl | hs
    · simp [substKappa, constQ]
    · simp [substKappa, constQ, hs]

lemma eval_substKappa (env : Env) (E : Expr) : expanded E = true →
    eval env (substKappa E)
      = eval { env with vars := Function.update env.vars .kappa ((Real.pi : ℝ) : ℂ) } E := by
  induction E <;> intro h
  case znm => simp [expanded] at h
  case poolSum => simp [expanded] at h
  case sym s =>
    rcases eq_or_ne s .kappa with rfl | hs
    · simp [substKappa, eval, Function.update_same]
    · simp [substKappa, eval, hs, Function.update_noteq]
  all_goals
    simp only [expanded, Bool.and_eq_true] at h
    simp only [substKappa, eval, constQ_substKappa, *]

lemma ofReal_listSum (f : ℚ → ℝ) (xs : List ℚ) :
    (((xs.map f).sum : ℝ) : ℂ) = (xs.map fun x => ((f x : ℝ) : ℂ)).sum := by
  induction xs with
  | nil => simp
  | cons x xs ih => simp [ih]

lemma bodyVal_eq_ofReal (env : Env) (lr mr : List ℚ) (kq : ℚ) (p : ℝ)
    (hP : env.vars .Pgamma = (p : ℂ)) :
    bodyVal env lr mr kq = ((bodyValR env p lr mr kq : ℝ) : ℂ) := by
  unfold bodyVal bodyValR
  rw [hP]
  push_cast
  ring

lemma intensityVal_eq_ofReal (env : Env) (lr mr kv : List ℚ) (p kr : ℝ)
    (hP : env.vars .Pgamma = (p : ℂ)) (hk : env.vars .kappa = (kr : ℂ)) :
    intensityVal env lr mr kv
      = (((2 * kr * (kv.map (bodyValR env p lr mr)).sum : ℝ)) : ℂ) := by
  unfold intensityVal
  rw [hk, List.map_congr_left fun kq _ => bodyVal_eq_ofReal env lr mr kq p hP]
  rw [show ((2 * kr * (kv.map (bodyValR env p lr mr)).sum : ℝ) : ℂ)
      = ((2 : ℝ) : ℂ) * (kr : ℂ) * (((kv.map (bodyValR env p lr mr)).sum : ℝ) : ℂ) by
    push_cast; ring]
  rw [ofReal_listSum]
  push_cast
  ring

lemma eval_plottedExpr (env : Env) :
    eval env plottedExpr
      = intensityVal { env with vars := Function.update env.vars .kappa ((Real.pi : ℝ) : ℂ) }
          lRange mRange kValues := by
  rw [show plottedExpr = substKappa (doit (intensityExpr lRange mRange kValues)) from rfl,
    eval_substKappa env _ (expanded_doit _), eval_doit_intensity]

lemma bodyValR_nonneg (env : Env) (p : ℝ) (lr mr : List ℚ) (kq : ℚ)
    (h0 : 0 ≤ p) (h1 : p ≤ 1) : 0 ≤ bodyValR env p lr mr kq := by
  unfold bodyValR
  have c1 : (0 : ℝ) ≤ 1 - p := by linarith
  have c2 : (0 : ℝ) ≤ 1 + p := by linarith
  have hW : ∀ (pos : Bool) (pp : Part),
      (0 : ℝ) ≤ Complex.abs (waveSum env pos pp lr mr kq) ^ 2 := fun pos pp => by positivity
  exact add_nonneg (add_nonneg (add_nonneg
    (mul_nonneg c1 (hW false .re)) (mul_nonneg c1 (hW true .im)))
    (mul_nonneg c2 (hW true .re))) (mul_nonneg c2 (hW false .im))

lemma waveSum_swap (env : Env) (pos : Bool) (p : Part) (lr mr : List ℚ) (kq : ℚ) :
    waveSum (swapEnv env) pos p lr mr kq = waveSum env (!pos) p lr mr kq := rfl

lemma intensityVal_swap_P0 (env : Env) (lr mr kv : List ℚ) (hP : env.vars .Pgamma = 0) :
    intensityVal (swapEnv env) lr mr kv = intensityVal env lr mr kv := by
  unfold intensityVal
  refine congrArg _ (congrArg _ (congrArg List.sum (List.map_congr_left fun kq _ => ?_)))
  unfold bodyVal
  simp only [waveSum_swap, Bool.not_false, Bool.not_true,
    show (swapEnv env).vars = env.vars from rfl, hP]
  push_cast
  ring

/-! ## The claims -/

/-- C1 (amended): for every valid input (nonempty summation ranges), the
fully expanded intensity expression contains exactly `4 × |flip_indices|`
squared-magnitude terms — one per summand of the outer pool sum over `k` —
independently of `|m_range|`, because the `m` sum lies inside each
magnitude.  The claimed count `|flip_indices| × |m_range| × 4` is wrong. -/
theorem C1_theorem (lr mr kv : List ℚ) (_hlr : lr ≠ []) (_hmr : mr ≠ []) :
    countAbsSq (doit (intensityExpr lr mr kv)) = 4 * kv.length :=
  countAbsSq_doit_intensity lr mr kv

/-- C1 witness: the notebook's instance has nonempty ranges and exactly
`4 × |k_values| = 4` squared-magnitude terms. -/
theorem C1_witness :
    lRange ≠ [] ∧ mRange ≠ [] ∧
      countAbsSq (doit (intensityExpr lRange mRange kValues)) = 4 * kValues.length :=
  ⟨by decide, by decide, C1_theorem lRange mRange kValues (by decide) (by decide)⟩

/-- C1 counterexample: on the notebook's input (`|flip_indices| = 1`,
`|m_range| = 5`) the claimed count would be `20`, but the expanded
expression contains `4` squared magnitudes. -/
theorem C1_counterexample :
    countAbsSq (doit (intensityExpr lRange mRange kValues))
      ≠ kValues.length * mRange.length * 4 := by decide

/-- C2: evaluating the compiled intensity (κ already fixed to π) under any
environment whose polarization value is a real number in `[0, 1]` — any
angles, any complex amplitude coefficients, any interpretation of the
harmonic — yields a real, non-negative (hence finite) number.  The spec's
concrete scenario is the witness below. -/
theorem C2_theorem (env : Env) (p : ℝ)
    (hP : env.vars .Pgamma = (p : ℂ)) (h0 : 0 ≤ p) (h1 : p ≤ 1) :
    (eval env plottedExpr).im = 0 ∧ 0 ≤ (eval env plottedExpr).re := by
  have hup : Function.update env.vars .kappa ((Real.pi : ℝ) : ℂ) .Pgamma = (p : ℂ) := by
    rw [Function.update_noteq (by decide)]
    exact hP
  have hk : Function.update env.vars .kappa ((Real.pi : ℝ) : ℂ) .kappa
      = ((Real.pi : ℝ) : ℂ) := Function.update_same _ _ _
  rw [eval_plottedExpr env,
    intensityVal_eq_ofReal
      { env with vars := Function.update env.vars .kappa ((Real.pi : ℝ) : ℂ) }
      lRange mRange kValues p Real.pi hup hk]
  refine ⟨Complex.ofReal_im _, ?_⟩
  rw [Complex.ofReal_re]
  have hsum : 0 ≤ (kValues.map
      (bodyValR { env with vars := Function.update env.vars .kappa ((Real.pi : ℝ) : ℂ) }
        p lRange mRange)).sum :=
    List.sum_nonneg fun x hx => by
      obtain ⟨kq, _, rfl⟩ := List.mem_map.mp hx
      exact bodyValR_nonneg _ p _ _ kq h0 h1
  have hπ := Real.pi_pos
  nlinarith

/-- C2 witness: the spec's concrete scenario `θ = π/2, φ = 0, Φ = 0`,
`P = 1`, `A⁻ = 1`, `A⁺ = 0`, `κ = π` gives a real non-negative value. -/
theorem C2_witness :
    (eval scenarioEnv plottedExpr).im = 0 ∧ 0 ≤ (eval scenarioEnv plottedExpr).re :=
  C2_theorem scenarioEnv 1 (by simp [scenarioEnv]) (by norm_num) (by norm_num)

/-- C3: at polarization `P = 0`, swapping the `+` and `−` coefficient
families leaves the value of the fully expanded intensity unchanged, for
every evaluation point, every pair of coefficient families and every
interpretation of the harmonic. -/
theorem C3_theorem (env : Env) (hP : env.vars .Pgamma = 0) :
    eval (swapEnv env) (doit intensityNotebook) = eval env (doit intensityNotebook) := by
  show eval (swapEnv env) (doit (intensityExpr lRange mRange kValues))
    = eval env (doit (intensityExpr lRange mRange kValues))
  rw [eval_doit_intensity, eval_doit_intensity]
  exact intensityVal_swap_P0 env lRange mRange kValues hP

/-- C3 witness: the swap symmetry at the all-zero environment. -/
theorem C3_witness :
    eval (swapEnv zeroEnv) (doit intensityNotebook) = eval zeroEnv (doit intensityNotebook) :=
  C3_theorem zeroEnv rfl

/-- C4: binding every free symbol of a fully expanded tree to concrete
values (`xreplace`-style structural substitution) and evaluating equals
calling the compiled numeric function (the semantics of `sp.lambdify`) on
those same values; exact equality in real-number semantics, so in
particular within any floating-point tolerance. -/
theorem C4_theorem (e : Expr) (ν : Atom → Expr) (env : Env) :
    expanded e = true → goodIndexed e = true →
    eval env (substNum ν e) = lambdifyFun e (bindEnv ν env) := by
  induction e <;> intro h1 h2
  case znm => simp [expanded] at h1
  case poolSum => simp [expanded] at h1
  case const => rfl
  case pi => rfl
  case I => rfl
  case sym => rfl
  case indexed p a b iha ihb =>
    simp only [goodIndexed, Bool.and_eq_true, Option.isSome_iff_exists] at h2
    obtain ⟨⟨qa, ha⟩, ⟨qb, hb⟩⟩ := h2
    rw [constQ_eq_some] at ha hb
    subst ha; subst hb
    rfl
  all_goals
    simp only [expanded, goodIndexed, Bool.and_eq_true] at h1 h2
    simp only [substNum, eval, lambdifyFun, bindEnv, *]

/-- C4 witness: the round trip on the notebook's fully expanded intensity,
binding every free symbol to `1`. -/
theorem C4_witness :
    eval zeroEnv (substNum (fun _ => .const 1) (doit intensityNotebook))
      = lambdifyFun (doit intensityNotebook) (bindEnv (fun _ => .const 1) zeroEnv) :=
  C4_theorem (doit intensityNotebook) (fun _ => .const 1) zeroEnv
    (expanded_doit _) (by decide)

/-- C5 (amended): the compiled function's positional argument order is the
fixed tuple `(theta, phi, Phi, P_gamma)` followed by the indexed amplitude
coefficients sorted lexicographically by name (note the string order
`[-1, 0] < [-2, 0] < [0, 0]`); it is *not* the full name-sorted
free-symbol list of the compiled expression, which would start with
`P_gamma` and place `theta`, `phi` last. -/
theorem C5_theorem :
    argumentsNb
      = [.sym .theta, .sym .phi, .sym .Phi, .sym .Pgamma,
         .ind true (-1) 0, .ind true (-2) 0, .ind true 0 0, .ind true 1 0, .ind true 2 0,
         .ind false (-1) 0, .ind false (-2) 0, .ind false 0 0, .ind false 1 0,
         .ind false 2 0]
    ∧ ampSymbolsNb = (sortedFreeSymbols (doit intensityNotebook)).filter (·.isIndexed) :=
  ⟨by decide, rfl⟩

/-- C5 counterexample: the argument list is not the name-sorted free-symbol
list, neither of the compiled expression (`plotted_expr`) nor of the
expanded intensity (the first positional argument is `theta`, while the
name-sorted free symbols start with `P_gamma`). -/
theorem C5_counterexample :
    argumentsNb ≠ sortedFreeSymbols plottedExpr ∧ argumentsNb ≠ freeSymbolsNb := by
  constructor <;> decide

/-- C6 (modelled from the spec, §4.3): compiling a tree with a free symbol
missing from the declared argument list yields `UnboundSymbol` at compile
time — the compiled function is never produced, so the error cannot be
deferred to call time. -/
theorem C6_theorem (e : Expr) (args : List Atom) (a : Atom)
    (ha : a ∈ (freeAtoms e).dedup) (hnot : a ∉ args) :
    compileNum e args = .error .unboundSymbol := by
  unfold compileNum
  rw [if_neg]
  intro hall
  rw [List.all_eq_true] at hall
  exact hnot (by simpa using hall a ha)

/-- C6 witness: compiling the bare symbol `kappa` against an empty argument
list fails with `UnboundSymbol`. -/
theorem C6_witness : compileNum (.sym .kappa) [] = .error .unboundSymbol :=
  C6_theorem (.sym .kappa) [] (.sym .kappa) (by decide) (by decide)

/-- C7: `doit` expansion is idempotent on every expression — in particular
on the phase-rotated harmonic — and one expansion of the notebook's
`Znm(l, m, θ, φ, Φ)` yields exactly `Ynm(l, m, θ, φ) · exp(−iΦ)`. -/
theorem C7_theorem :
    (∀ e : Expr, doit (doit e) = doit e) ∧
      doit znm = .mul (.ynm (.sym .l) (.sym .m) (.sym .theta) (.sym .phi))
        (.exp (.mul (.mul (.const (-1)) .I) (.sym .Phi))) :=
  ⟨fun e => doit_of_expanded (doit e) (expanded_doit e), rfl⟩

/-- C8 (amended): per amplitude coefficient the renderer builds exactly one
magnitude slider with bounds `[0, 2]` (lower bound `0`) and one phase
slider with bounds `[0, 2]` — two radians, *not* a full turn `2π` — and the
value passed to the numeric function is `magnitude · exp(i · phase)`
(equivalently `magnitude · (cos phase + i sin phase)`). -/
theorem C8_theorem :
    sliderCheck = true ∧ (freeSymbolsNb.filter isAmpSliderSymbol).length = 10 ∧
      ∀ mag ph : ℝ, plotAmplitude mag ph
        = (mag : ℂ) * (((Real.cos ph : ℝ) : ℂ) + ((Real.sin ph : ℝ) : ℂ) * Complex.I) := by
  refine ⟨by decide, by decide, fun mag ph => ?_⟩
  unfold plotAmplitude
  rw [Complex.ofReal_cos, Complex.ofReal_sin, Complex.exp_mul_I]

/-- C8 counterexample: the phase slider spans `[0, 2]`, and `2 ≠ 2π`, so
its range is not one full turn of phase in the radian units the formula
uses. -/
theorem C8_counterexample :
    slidersNb.lookup "[l]^\x7b(+)\x7d[-1, 0]_phi" = some phaseSlider ∧
      phaseSlider.max.toReal - phaseSlider.min.toReal ≠ 2 * Real.pi := by
  refine ⟨by decide, ?_⟩
  show ((2 : ℚ) : ℝ) - ((0 : ℚ) : ℝ) ≠ 2 * Real.pi
  intro h
  have := Real.pi_gt_three
  rw [Rat.cast_ofNat, Rat.cast_zero] at h
  nlinarith

/-- C9: the compiled function has no `kappa` argument: `kappa` is not in
the argument list, does not occur free in the compiled expression, has no
slider, and the compiled expression evaluates exactly as the expanded
intensity with `kappa` bound to `π` — so the scale is fixed to `π` and
cannot be varied through the UI. -/
theorem C9_theorem :
    Atom.sym .kappa ∉ argumentsNb ∧
      (freeAtoms plottedExpr).dedup.contains (Atom.sym .kappa) = false ∧
      slidersNb.all (fun e => e.1 != "kappa") = true ∧
      ∀ env : Env, eval env plottedExpr
        = eval { env with vars := Function.update env.vars .kappa ((Real.pi : ℝ) : ℂ) }
            (doit intensityNotebook) :=
  ⟨by decide, by decide, by decide, fun env => eval_substKappa env _ (expanded_doit _)⟩

/-- C10: the orbital summation range is the singleton `[max_l] = [2]`, not
the full range `0..max_l`, and consequently all 20 spherical harmonics of
the fully expanded intensity have degree exactly `2`. -/
theorem C10_theorem :
    lRange = [maxL] ∧ maxL = 2 ∧ lRange ≠ createRange 0 2 ∧
      (ynmDegrees (doit intensityNotebook)).length = 20 ∧
      (ynmDegrees (doit intensityNotebook)).all (fun d => d == .const 2) = true :=
  ⟨rfl, rfl, by decide, by decide, by decide⟩

end GluexAmp








